import Mathlib

/-!
Shallow embedding of the crogs-bot scheduling core:
news round-robin pipeline (src/bot_modules/newsbot.py),
holiday drip-feed pipeline (src/bot_modules/holibot.py) and
the background scheduler driver (main.py).

Times are modelled as follows: the news module works in whole minutes
(config times are HH:MM and the interval is `post_interval_minutes`),
so its timestamps are naturals / integers counting minutes.  The holiday
module computes a posting interval as a float number of seconds
(`window_seconds / max(1, n-1)`); floats are idealised as rationals,
timestamps are rational seconds since the epoch.  `datetime.date()` /
`datetime.fromisoformat` dates are integers counting days since 1970-01-01.
-/

/-- A scheduler config entry as seen through `cfg.get(...)` plus `map(int, s.split(":"))`
(and, for the news module, `_parse_hhmm`): the key can be absent (`KeyError` on
indexing / `None` from `.get`), present but unparseable or out of range
(`ValueError`), or a valid HH:MM time, carried as seconds (or minutes) of day. -/
inductive CfgTime where
  | missing
  | invalid
  | valid (ofDay : Nat)
deriving DecidableEq, Repr

namespace NewsBot

/-- The on-disk JSON state `newsbot_state.json`:
`posted_articles` maps url -> first-seen timestamp (minutes since epoch here),
plus `last_source_index`. -/
structure NewsFile where
  postedArticles : List (String × Int)
  lastSourceIndex : Int
deriving DecidableEq, Repr

/-- In-memory state of `NewsBotModule`: the seen set (kept together with the
first-seen timestamps, as in `_state_data["posted_articles"]`) and the
round-robin cursor `last_source_index`. -/
structure NewsState where
  postedArticles : List (String × Int)
  lastSourceIndex : Int
deriving DecidableEq, Repr

/-- `cutoff_date = datetime.now(utc) - timedelta(days=history_days)`, in minutes. -/
def newsCutoff (now : Int) (historyDays : Int) : Int :=
  now - 1440 * historyDays

/-- `NewsBotModule._load_state_from_disk`: `none` stands for
`FileNotFoundError`/`JSONDecodeError`/`KeyError` (start fresh); otherwise keep
exactly the articles with `datetime.fromisoformat(ts) > cutoff_date` and restore
the cursor (default -1). -/
def loadStateFromDisk (file : Option NewsFile) (now historyDays : Int) : NewsState :=
  match file with
  | none => { postedArticles := [], lastSourceIndex := -1 }
  | some f =>
      { postedArticles := f.postedArticles.filter (fun p => newsCutoff now historyDays < p.2)
        lastSourceIndex := f.lastSourceIndex }

/-- `NewsBotModule._save_state_to_disk`: writes `posted_articles` and
`last_source_index` back to the state file. -/
def saveStateToDisk (st : NewsState) : NewsFile :=
  { postedArticles := st.postedArticles, lastSourceIndex := st.lastSourceIndex }

/-- `self.posted_article_urls`: the url key set of `posted_articles`. -/
def seenUrls (st : NewsState) : List String :=
  st.postedArticles.map Prod.fst

/-- `NewsBotModule._add_article_to_history`. -/
def addArticleToHistory (st : NewsState) (now : Int) (url : String) : NewsState :=
  if url ∈ seenUrls st then st
  else { st with postedArticles := st.postedArticles ++ [(url, now)] }

/-- One configured news source, at the scrape-collaborator boundary:
`listing` is what `_scrape_source_for_articles` returns (article urls in order),
`hasContent` the urls for which `_scrape_article_content` succeeds. -/
structure SourceEnv where
  listing : List String
  hasContent : List String
deriving DecidableEq, Repr

/-- The `for i in range(num_sources)` loop body of `_run_news_job`, iterating over
the precomputed index sequence.  For each source: pick the first listed article
whose url is not in the seen set; if none, continue; if its content scrape
fails, record the url as seen and continue; otherwise post it, update the
cursor only on a non-forced run, record the url as seen, and stop. -/
def newsJobVisit (sources : List SourceEnv) (now : Int) (forcePost : Bool) :
    List Nat → NewsState → NewsState × Option (Nat × String)
  | [], st => (st, none)
  | idx :: rest, st =>
      match sources.get? idx with
      | none => (st, none)
      | some src =>
          match src.listing.find? (fun u => decide (u ∉ seenUrls st)) with
          | none => newsJobVisit sources now forcePost rest st
          | some u =>
              if u ∈ src.hasContent then
                let st1 := if forcePost then st else { st with lastSourceIndex := (idx : Int) }
                (addArticleToHistory st1 now u, some (idx, u))
              else
                newsJobVisit sources now forcePost rest (addArticleToHistory st now u)

/-- `start_index = 0 if force_post else (self.last_source_index + 1) % num_sources`
(Python `%` on a possibly negative left operand, i.e. `Int.emod`). -/
def newsStartIndex (forcePost : Bool) (last : Int) (n : Nat) : Nat :=
  if forcePost then 0 else ((last + 1).emod (n : Int)).toNat

/-- `NewsBotModule._run_news_job`: returns the new state and, when an article was
posted, the source index and url.  With no configured sources the job returns
immediately. -/
def runNewsJob (sources : List SourceEnv) (now : Int) (forcePost : Bool)
    (st : NewsState) : NewsState × Option (Nat × String) :=
  if sources.length = 0 then (st, none)
  else
    let n := sources.length
    let start := newsStartIndex forcePost st.lastSourceIndex n
    newsJobVisit sources now forcePost ((List.range n).map (fun i => (start + i) % n)) st

/-- The `while next_slot < search_start_time: next_slot += interval` loop of
`_calculate_next_post_time`, with explicit fuel (the Python loop terminates iff
the interval is positive; callers pass fuel `target`, which suffices then). -/
def nextSlotLoop (target interval : Nat) : Nat → Nat → Nat
  | 0, slot => slot
  | fuel + 1, slot => if slot < target then nextSlotLoop target interval fuel (slot + interval) else slot

/-- The `scheduler` section of the news module config, after parsing:
`post_start_time_utc`, `post_end_time_utc` (via `_parse_hhmm`, minutes of day)
and `post_interval_minutes` (via `int(...)`; `none` when missing or unparseable). -/
structure NewsSchedCfg where
  postStartTimeUtc : CfgTime
  postEndTimeUtc : CfgTime
  postIntervalMinutes : Option Nat
deriving DecidableEq, Repr

/-- `NewsBotModule._calculate_next_post_time`, with `now` in minutes of the
current day (so `start_today`/`end_today` are the config minutes themselves and
"tomorrow's start" is `start + 1440`).  Any `KeyError`/`ValueError` from the
config disables the schedule (`none`). -/
def calculateNextPostTime (cfg : NewsSchedCfg) (now : Nat) : Option Nat :=
  match cfg.postStartTimeUtc, cfg.postEndTimeUtc, cfg.postIntervalMinutes with
  | .valid s, .valid e, some interval =>
      let searchStart := max now s
      if e < searchStart then some (s + 1440)
      else
        let slot := nextSlotLoop searchStart interval searchStart s
        if slot ≤ e then some slot else some (s + 1440)
  | _, _, _ => none

end NewsBot

namespace HoliBot

/-- `now.date()` for a timestamp in rational seconds since the epoch:
number of whole days since 1970-01-01. -/
def dayOf (t : ℚ) : ℤ := ⌊t / 86400⌋

/-- Midnight of the day containing `t`. -/
def dayStart (t : ℚ) : ℚ := 86400 * (dayOf t : ℚ)

/-- `t.replace(hour=h, minute=m, second=0, microsecond=0)` for a parsed HH:MM
carried as `sec` seconds of day. -/
def atTimeOfDay (t : ℚ) (sec : Nat) : ℚ := dayStart t + (sec : ℚ)

/-- In-memory state of `HoliBotModule`: the generated-content queue (items
abstracted to identifiers; contents play no role in scheduling), the
`_last_generation_date` (days since 1970-01-01), `_next_post_time` and
`_post_interval_seconds`. -/
structure HoliState where
  queue : List Nat
  lastGenerationDate : ℤ
  nextPostTime : Option ℚ
  postIntervalSeconds : ℚ
deriving DecidableEq, Repr

/-- The `scheduler` section of the holiday module config:
`post_time_utc` (daily generation trigger), `post_start_time_utc` and
`post_end_time_utc` (posting window), each parsed by `map(int, s.split(":"))`. -/
structure HoliCfg where
  postTimeUtc : CfgTime
  postStartTimeUtc : CfgTime
  postEndTimeUtc : CfgTime
deriving DecidableEq, Repr

/-- The persisted `_last_generation_date` config entry read back by
`HoliBotModule.__init__`: absent (the `.get` default "1970-01-01" is used),
present but not ISO-parseable (`ValueError`, reset to 1970-01-01), or a valid
date. -/
inductive PersistedDate where
  | missing
  | invalid
  | valid (d : ℤ)
deriving DecidableEq, Repr

/-- `HoliBotModule.__init__`: the only state reloaded from persistence is
`_last_generation_date`; the content queue starts empty, `_next_post_time` is
`None` and `_post_interval_seconds` is `0.0`. -/
def holibotInit (p : PersistedDate) : HoliState :=
  { queue := []
    lastGenerationDate := match p with | .valid d => d | _ => 0
    nextPostTime := none
    postIntervalSeconds := 0 }

/-- Everything `HoliBotModule` ever passes to `_save_state_callback`: the single
key `_last_generation_date` (written in `_do_generate_and_queue_content`). -/
def holibotPersistOf (st : HoliState) : PersistedDate :=
  .valid st.lastGenerationDate

/-- `HoliBotModule._do_generate_and_queue_content` at time `now`, with
`holidays` the day's generated items (the scrape/LLM collaborator boundary).
Records the generation date first (regardless of whether items were found),
then fills the queue, computes `_post_interval_seconds =
window_seconds / max(1, n - 1)` from the configured window (shifted overnight
when end < start) and sets the first `_next_post_time`; a `ValueError`/
`KeyError` while parsing the window falls back to interval 0 and posting now. -/
def doGenerateAndQueueContent (cfg : HoliCfg) (holidays : List Nat) (now : ℚ)
    (st : HoliState) : HoliState × Bool :=
  let st0 := { st with lastGenerationDate := dayOf now }
  if holidays = [] then
    ({ st0 with nextPostTime := none }, false)
  else
    let st1 := { st0 with queue := holidays }
    match cfg.postStartTimeUtc, cfg.postEndTimeUtc with
    | .valid s, .valid e =>
        let startToday := atTimeOfDay now s
        let endRaw := atTimeOfDay now e
        let endToday := if endRaw < startToday then endRaw + 86400 else endRaw
        let window := endToday - startToday
        let n := st1.queue.length
        let interval := if 0 < n ∧ 0 < window then window / ((max 1 (n - 1) : Nat) : ℚ) else 0
        let next := if endToday < now then startToday + 86400 else max now startToday
        ({ st1 with postIntervalSeconds := interval, nextPostTime := some next }, true)
    | _, _ =>
        ({ st1 with postIntervalSeconds := 0, nextPostTime := some now }, true)

/-- `HoliBotModule._do_post_next_item` at time `now`.  Empty queue: clear
`_next_post_time`, no post.  No target chats: drop the head item, schedule
`now + interval`, no post.  Otherwise post the head item, schedule
`now + interval` if items remain (else `None`), and when both window bounds are
configured and parseable and items remain, drop the whole remaining queue if
that next time exceeds today's (overnight-adjusted) window end. -/
def doPostNextItem (cfg : HoliCfg) (chats : List Int) (st : HoliState) (now : ℚ) :
    HoliState × Bool :=
  match st.queue with
  | [] => ({ st with nextPostTime := none }, false)
  | _ :: rest =>
      if chats = [] then
        ({ st with queue := rest, nextPostTime := some (now + st.postIntervalSeconds) }, false)
      else
        let next1 : Option ℚ := if rest = [] then none else some (now + st.postIntervalSeconds)
        let st1 := { st with queue := rest, nextPostTime := next1 }
        let st2 :=
          match cfg.postStartTimeUtc, cfg.postEndTimeUtc, next1, rest with
          | .valid s, .valid e, some t, _ :: _ =>
              let startToday := atTimeOfDay now s
              let endRaw := atTimeOfDay now e
              let endToday := if endRaw < startToday then endRaw + 86400 else endRaw
              if endToday < t then { st1 with queue := [], nextPostTime := none } else st1
          | _, _, _, _ => st1
        (st2, true)

/-- Helper for termination: posting never grows the queue. -/
theorem doPostNextItem_queue_length (cfg : HoliCfg) (chats : List Int)
    (st : HoliState) (now : ℚ) (x : Nat) (rest : List Nat) (h : st.queue = x :: rest) :
    ((doPostNextItem cfg chats st now).1).queue.length ≤ rest.length := by
  unfold doPostNextItem
  rw [h]
  by_cases hc : chats = []
  · simp [hc]
  · simp only [if_neg hc]
    rcases cfg.postStartTimeUtc with _ | _ | s <;>
      rcases cfg.postEndTimeUtc with _ | _ | e <;>
      rcases hr : rest with _ | ⟨y, rs⟩ <;>
      try simp
    all_goals (split_ifs <;> simp)

/-- The step-bounded drip timeline: assuming each due post is processed exactly
at its scheduled `_next_post_time`, the times at which items get posted, for at
most `fuel` posts.  Since every post strictly shrinks the queue, `fuel =
st.queue.length` (see `postTimeline`) never runs out early. -/
def postTimelineAux (cfg : HoliCfg) (chats : List Int) : Nat → HoliState → List ℚ
  | 0, _ => []
  | fuel + 1, st =>
      match st.queue, st.nextPostTime with
      | _ :: _, some t =>
          t :: postTimelineAux cfg chats fuel (doPostNextItem cfg chats st t).1
      | _, _ => []

/-- The idealised drip timeline: the list of times at which the queued items
are posted when every due post happens exactly at its scheduled time. -/
def postTimeline (cfg : HoliCfg) (chats : List Int) (st : HoliState) : List ℚ :=
  postTimelineAux cfg chats st.queue.length st

/-- `HoliBotModule.next_scheduled_event_time` at time `now`: the earlier of the
next generation obligation (immediate when today's generation is overdue by the
2-second grace, tomorrow when already done today) and the next pending post
(immediate when due within 2 seconds); a missing or unparseable
`post_time_utc` leaves the generation side unscheduled. -/
def nextScheduledEventTime (cfg : HoliCfg) (st : HoliState) (now : ℚ) : Option ℚ :=
  let genEvent : Option ℚ :=
    match cfg.postTimeUtc with
    | .valid g =>
        let todayGenTime := atTimeOfDay now g
        if st.lastGenerationDate ≠ dayOf now ∧ todayGenTime - 2 ≤ now then some now
        else if st.lastGenerationDate ≠ dayOf now then some todayGenTime
        else some (todayGenTime + 86400)
    | _ => none
  match st.queue, st.nextPostTime with
  | _ :: _, some t =>
      let postEvent := if t ≤ now + 2 then now else t
      match genEvent with
      | none => some postEvent
      | some ge => some (if postEvent < ge then postEvent else ge)
  | _, _ => genEvent

/-- `HoliBotModule.process_due_event` at time `now`: generate when today's
generation is due and not yet done (2-second grace); otherwise post the next
queued item when one is due (2-second grace); otherwise do nothing. -/
def processDueEvent (cfg : HoliCfg) (holidays : List Nat) (chats : List Int)
    (st : HoliState) (now : ℚ) : HoliState :=
  let isGenerationDue : Bool :=
    match cfg.postTimeUtc with
    | .valid g => decide (st.lastGenerationDate ≠ dayOf now ∧ atTimeOfDay now g - 2 ≤ now)
    | _ => false
  if isGenerationDue then (doGenerateAndQueueContent cfg holidays now st).1
  else
    match st.queue, st.nextPostTime with
    | _ :: _, some t => if t - 2 ≤ now then (doPostNextItem cfg chats st now).1 else st
    | _, _ => st

end HoliBot

namespace Driver

/-- What `main.background_scheduler` sees of one active module: the
`scheduler.post_time_utc` entry it reads from `module.module_config` (in
seconds of day), together with the module's `next_scheduled_event_time`
contract query, which the loop never consults. -/
structure SchedEntry where
  postTimeUtc : CfgTime
  nextDueTime : Option ℚ
deriving DecidableEq, Repr

/-- One cycle of the `while True` loop in `main.background_scheduler` at time
`now`: for each module with a parseable `post_time_utc`, dispatch
`run_scheduled_job` iff `now` lies in the 10-minute grace window at/after
today's configured time, and fold the seconds until that time's next
occurrence into the minimum sleep (initial 1 day, clamped below to 10
seconds).  Modules with a missing or unparseable entry are skipped.  Returns
the per-module dispatch flags and the sleep duration in seconds. -/
def schedulerCycle (mods : List SchedEntry) (now : ℚ) : List Bool × ℚ :=
  let step := fun (acc : List Bool × ℚ) (m : SchedEntry) =>
    match m.postTimeUtc with
    | .valid tm =>
        let targetTimeToday := HoliBot.dayStart now + (tm : ℚ)
        let effectiveTargetTime :=
          if targetTimeToday ≤ now then targetTimeToday + 86400 else targetTimeToday
        let dispatch := decide (targetTimeToday ≤ now ∧ now < targetTimeToday + 600)
        (acc.1 ++ [dispatch], min acc.2 (effectiveTargetTime - now))
    | _ => (acc.1 ++ [false], acc.2)
  let r := mods.foldl step ([], 86400)
  (r.1, max r.2 10)

end Driver

open NewsBot HoliBot Driver

/- The Batteries rational-number operations are `@[irreducible]`, which blocks
the evaluation of closed rational facts by `decide`; restore the default
reducibility so concrete states can be computed in proofs. -/
attribute [local semireducible] Rat.add Rat.mul Rat.inv Rat.sub Rat.ofScientific

section Helpers

/-- `_add_article_to_history` never touches the cursor. -/
theorem addArticleToHistory_cursor (st : NewsState) (now : Int) (url : String) :
    (addArticleToHistory st now url).lastSourceIndex = st.lastSourceIndex := by
  unfold addArticleToHistory
  split <;> rfl

/-- On a forced run the source loop never writes the cursor. -/
theorem newsJobVisit_force_cursor (sources : List SourceEnv) (now : Int) :
    ∀ (idxs : List Nat) (st : NewsState),
      ((newsJobVisit sources now true idxs st).1).lastSourceIndex = st.lastSourceIndex := by
  intro idxs
  induction idxs with
  | nil => intro st; rfl
  | cons idx rest ih =>
      intro st
      simp only [newsJobVisit]
      split
      · rfl
      · split
        · exact ih st
        · split
          · simp [addArticleToHistory_cursor]
          · exact (ih _).trans (addArticleToHistory_cursor st now _)

/-- Recording an article as seen preserves seen-set membership. -/
theorem mem_seen_addArticleToHistory (st : NewsState) (now : Int) (v u : String)
    (h : u ∈ seenUrls st) : u ∈ seenUrls (addArticleToHistory st now v) := by
  unfold addArticleToHistory
  split
  · exact h
  · unfold seenUrls at h ⊢
    simp only [List.map_append, List.mem_append]
    exact Or.inl h

/-- The source loop never posts a url that is already in the seen set. -/
theorem newsJobVisit_no_repost (sources : List SourceEnv) (now : Int) (force : Bool) :
    ∀ (idxs : List Nat) (st : NewsState) (u : String), u ∈ seenUrls st →
      ∀ i, (newsJobVisit sources now force idxs st).2 ≠ some (i, u) := by
  intro idxs
  induction idxs with
  | nil => intro st u _ i h; exact Option.noConfusion h
  | cons idx rest ih =>
      intro st u hu i
      simp only [newsJobVisit]
      split
      · exact fun h => Option.noConfusion h
      · split
        · exact ih st u hu i
        · rename_i src _ v hf
          have hv : v ∉ seenUrls st := by
            have := List.find?_some hf
            simpa using this
          split
          · intro h
            have hvu : v = u := congrArg Prod.snd (Option.some.inj h)
            exact hv (hvu ▸ hu)
          · exact ih (addArticleToHistory st now v) u
              (mem_seen_addArticleToHistory st now v u hu) i

end Helpers

/-- C3: the claim that the driver computes the global minimum of the modules'
next-due-time queries, sleeps until it and then dispatches the due modules via
their due-event operation is false of `main.background_scheduler`: with a
single holiday module whose contract query says it is due 5 seconds from now
(a pending post at t=3605, now=3600) but whose configured `post_time_utc` is
13:00 (46800 s), the cycle dispatches nothing and sleeps 43200 seconds — it
reads `scheduler.post_time_utc` from the module's config and calls
`run_scheduled_job` inside a 10-minute grace window, never the module
contract. -/
theorem scheduler_ignores_module_contract :
    nextScheduledEventTime ⟨.missing, .valid 28800, .valid 72000⟩
        ⟨[1], 0, some 3605, 10800⟩ 3600 = some 3605 ∧
    schedulerCycle
        [⟨.valid 46800,
          nextScheduledEventTime ⟨.missing, .valid 28800, .valid 72000⟩
            ⟨[1], 0, some 3605, 10800⟩ 3600⟩] 3600 = ([false], 43200) ∧
    (43200 : ℚ) ≠ 3605 - 3600 := by
  refine ⟨by decide, by decide, by decide⟩

/-- C4 counterexample: a pre-restart state holding one queued item whose post
time (100 s) is long past at reload; the only data the module ever persists is
`_last_generation_date`, so `__init__` after the restart yields an empty queue
and no next post time — the item is dropped, not rescheduled. -/
theorem drip_restart_drops_queue_cex :
    (⟨[7], 20000, some 100, 300⟩ : HoliState).queue = [7] ∧
    (⟨[7], 20000, some 100, 300⟩ : HoliState).nextPostTime = some 100 ∧
    (100 : ℚ) < 86400 * 20000 ∧
    (holibotInit (holibotPersistOf ⟨[7], 20000, some 100, 300⟩)).queue = [] ∧
    (holibotInit (holibotPersistOf ⟨[7], 20000, some 100, 300⟩)).nextPostTime = none := by
  refine ⟨rfl, rfl, by norm_num, rfl, rfl⟩

/-- C4 (amended): `HoliBotModule.__init__` restores only the last generation
date (defaulting to 1970-01-01 when the persisted value is missing or
unparseable); the content queue always starts empty, the next post time unset
and the interval zero — nothing queued before a restart survives it. -/
theorem holibot_init_state (p : PersistedDate) :
    (holibotInit p).queue = [] ∧ (holibotInit p).nextPostTime = none ∧
    (holibotInit p).postIntervalSeconds = 0 ∧
    (holibotInit p).lastGenerationDate = (match p with | .valid d => d | _ => 0) := by
  cases p <;> exact ⟨rfl, rfl, rfl, rfl⟩

/-- C1 counterexample: the url "a" is recorded in the seen set (it is still
seen when the state file is reloaded at minute 100 with a 7-day retention),
yet reloading the very same state file 8 days after the article was first
seen prunes the entry, and the next run selects and posts "a" again — so
"never selects or posts that article again, including after a process restart
that reloads the same state file" fails once the retention window elapses. -/
theorem news_seen_repost_after_prune_cex :
    "a" ∈ seenUrls (loadStateFromDisk (some ⟨[("a", 0)], 2⟩) 100 7) ∧
    (runNewsJob [⟨["a"], ["a"]⟩] 99999 false
        (loadStateFromDisk (some ⟨[("a", 0)], 2⟩) (1440 * 8) 7)).2 = some (0, "a") := by
  refine ⟨by decide, by decide⟩

/-- C1 (amended): an article identifier recorded in the seen set is never
selected or posted again by any later run — scheduled or forced — as long as
the state file is reloaded while the entry is still inside the retention
window (`first-seen > now - history_days`); the pipeline always picks the
first listed item whose url is not in the seen set, so entries pruned by an
out-of-window reload can be re-posted. -/
theorem news_dedup_within_retention (file : NewsFile) (nowLoad nowRun days ts : Int)
    (u : String) (sources : List SourceEnv) (force : Bool)
    (hmem : (u, ts) ∈ file.postedArticles)
    (hfresh : newsCutoff nowLoad days < ts) :
    u ∈ seenUrls (loadStateFromDisk (some file) nowLoad days) ∧
    ∀ i, (runNewsJob sources nowRun force (loadStateFromDisk (some file) nowLoad days)).2
      ≠ some (i, u) := by
  have hseen : u ∈ seenUrls (loadStateFromDisk (some file) nowLoad days) := by
    unfold loadStateFromDisk seenUrls
    simp only [List.mem_map]
    exact ⟨(u, ts), List.mem_filter.mpr ⟨hmem, by simpa using hfresh⟩, rfl⟩
  refine ⟨hseen, fun i => ?_⟩
  unfold runNewsJob
  split
  · exact fun h => Option.noConfusion h
  · exact newsJobVisit_no_repost sources nowRun force _ _ u hseen i

/-- C1 witness. -/
theorem news_dedup_within_retention_witness :
    ((("b", 500) : String × Int) ∈ ([("b", 500)] : List (String × Int)) ∧
      newsCutoff 1000 7 < 500) ∧
    ("b" ∈ seenUrls (loadStateFromDisk (some ⟨[("b", 500)], 0⟩) 1000 7) ∧
      ∀ i, (runNewsJob [⟨["b"], ["b"]⟩] 2000 false
          (loadStateFromDisk (some ⟨[("b", 500)], 0⟩) 1000 7)).2 ≠ some (i, "b")) :=
  ⟨⟨by decide, by decide⟩,
    news_dedup_within_retention ⟨[("b", 500)], 0⟩ 1000 2000 7 500 "b"
      [⟨["b"], ["b"]⟩] false (by decide) (by decide)⟩

/-- C9: on load, a seen-article entry strictly older than the retention cutoff
(`now - history_days`) is absent from the reloaded seen set, and every entry
strictly newer than the cutoff is retained (url keys are unique, as in the
JSON object the state file stores). -/
theorem retention_pruning_on_load (file : NewsFile) (now days ts : Int) (u : String)
    (hnodup : (file.postedArticles.map Prod.fst).Nodup)
    (hmem : (u, ts) ∈ file.postedArticles) :
    (ts < newsCutoff now days → u ∉ seenUrls (loadStateFromDisk (some file) now days)) ∧
    (newsCutoff now days < ts → u ∈ seenUrls (loadStateFromDisk (some file) now days)) := by
  constructor
  · intro hold hmem2
    unfold loadStateFromDisk seenUrls at hmem2
    simp only [List.mem_map] at hmem2
    obtain ⟨⟨u2, ts2⟩, hp, hfst⟩ := hmem2
    have hp2 := List.mem_filter.mp hp
    have hkey : (u2, ts2) = (u, ts) :=
      List.inj_on_of_nodup_map hnodup hp2.1 hmem (by simpa using hfst)
    have hts : ts2 = ts := congrArg Prod.snd hkey
    have hlt : newsCutoff now days < ts2 := by
      have h2 := hp2.2
      simpa using h2
    omega
  · intro hfresh
    unfold loadStateFromDisk seenUrls
    simp only [List.mem_map]
    exact ⟨(u, ts), List.mem_filter.mpr ⟨hmem, by simpa using hfresh⟩, rfl⟩

/-- C9 witness. -/
theorem retention_pruning_on_load_witness :
    ((([("old", 0), ("new", 9999)] : List (String × Int)).map Prod.fst).Nodup ∧
      (("old", 0) : String × Int) ∈ ([("old", 0), ("new", 9999)] : List (String × Int)) ∧
      (0 : Int) < newsCutoff 20000 7) ∧
    ((0 : Int) < newsCutoff 20000 7 →
      "old" ∉ seenUrls (loadStateFromDisk (some ⟨[("old", 0), ("new", 9999)], 1⟩) 20000 7)) :=
  ⟨⟨by decide, by decide, by decide⟩,
    (retention_pruning_on_load ⟨[("old", 0), ("new", 9999)], 1⟩ 20000 7 0 "old"
      (by decide) (by decide)).1⟩

/-- C6 counterexample: daily generation at 08:00, window 08:00-20:00, two
generated items.  The first due-event call on day 10 at 08:00:00 generates and
queues 2 items; the second call one second later — same calendar day, after
generation has already run — does not regenerate, but it posts a due item
(and, the freshly computed next time 20:00:01 falling past the window end,
drops the rest), so the content queue size after the second call (0) differs
from the size after the first (2). -/
theorem second_due_event_posts_item_cex :
    (processDueEvent ⟨.valid 28800, .valid 28800, .valid 72000⟩ [1, 2] [5]
        (holibotInit .missing) 892800).queue.length = 2 ∧
    (processDueEvent ⟨.valid 28800, .valid 28800, .valid 72000⟩ [1, 2] [5]
        (holibotInit .missing) 892800).lastGenerationDate = dayOf 892801 ∧
    (processDueEvent ⟨.valid 28800, .valid 28800, .valid 72000⟩ [1, 2] [5]
        (processDueEvent ⟨.valid 28800, .valid 28800, .valid 72000⟩ [1, 2] [5]
          (holibotInit .missing) 892800) 892801).queue.length = 0 ∧
    (2 : Nat) ≠ 0 := by
  refine ⟨by decide, by decide, by decide, by decide⟩

/-- C2 counterexample: window 08:00-20:00 (28800-72000 s), N = 5 items, but
generation runs late at 14:00 (50400 s), so the effective start S is 14:00
while the code's interval is still computed from the full configured window:
(72000 - 28800)/4 = 10800 s.  The realised timeline is 14:00, 17:00, 20:00
and the last two items are dropped — not the claimed
S + i·((E - S)/max(1, N-1)) for i in [0, 5), whose second timestamp would be
15:30. -/
theorem drip_timestamps_effective_window_cex :
    postTimeline ⟨.valid 28800, .valid 28800, .valid 72000⟩ [1]
        (doGenerateAndQueueContent ⟨.valid 28800, .valid 28800, .valid 72000⟩
          [1, 2, 3, 4, 5] 50400 (holibotInit .missing)).1
      = [50400, 61200, 72000] ∧
    (50400 : ℚ) = max 50400 (86400 * (dayOf (50400 : ℚ) : ℚ) + 28800) ∧
    (61200 : ℚ) ≠ 50400 + 1 * ((72000 - 50400) / 4) ∧
    ([50400, 61200, 72000] : List ℚ).length ≠ 5 := by
  refine ⟨by decide, by decide, by decide, by decide⟩

/-- C8 counterexample: the holiday module with a malformed (unparseable)
`post_time_utc` but a pending queued post still reports a non-null
next-due-time (the pending post's time), so a configuration error does not
always make the next-due-time query return null. -/
theorem holibot_next_event_nonnull_cex :
    nextScheduledEventTime ⟨.invalid, .valid 28800, .valid 72000⟩
        ⟨[3], 5, some 2000, 100⟩ 1000 = some 2000 ∧
    (some (2000 : ℚ) ≠ (none : Option ℚ)) := by
  refine ⟨by decide, by decide⟩

/-- C8 (amended): a malformed or missing scheduler config field is caught, not
fatal, and disables what it governs: the news module's next-due-time
computation returns null whenever any of its three scheduler fields is missing
or unparseable; the holiday module's generation schedule is likewise disabled,
and its next-due-time query returns null provided no generated posts are
pending — but a pending queued post keeps the query non-null. -/
theorem config_error_disables_schedule (ncfg : NewsSchedCfg) (nowN : Nat)
    (hcfg : HoliCfg) (st : HoliState) (now : ℚ)
    (hn : ncfg.postStartTimeUtc = .missing ∨ ncfg.postStartTimeUtc = .invalid ∨
          ncfg.postEndTimeUtc = .missing ∨ ncfg.postEndTimeUtc = .invalid ∨
          ncfg.postIntervalMinutes = none)
    (hg : hcfg.postTimeUtc = .missing ∨ hcfg.postTimeUtc = .invalid)
    (hq : st.queue = [] ∨ st.nextPostTime = none) :
    calculateNextPostTime ncfg nowN = none ∧
    nextScheduledEventTime hcfg st now = none := by
  constructor
  · obtain ⟨cs, ce, ci⟩ := ncfg
    cases cs <;> cases ce <;> cases ci <;> simp_all [calculateNextPostTime]
  · unfold nextScheduledEventTime
    rcases hg with hg | hg <;> rw [hg] <;>
      rcases hq with hq | hq <;>
      rcases hqq : st.queue with _ | ⟨x, xs⟩ <;>
      rcases hnn : st.nextPostTime with _ | t <;>
      simp_all

/-- C8 witness. -/
theorem config_error_disables_schedule_witness :
    ((⟨.missing, .valid 0, some 5⟩ : NewsSchedCfg).postStartTimeUtc = .missing ∨
      (⟨.missing, .valid 0, some 5⟩ : NewsSchedCfg).postStartTimeUtc = .invalid ∨
      (⟨.missing, .valid 0, some 5⟩ : NewsSchedCfg).postEndTimeUtc = .missing ∨
      (⟨.missing, .valid 0, some 5⟩ : NewsSchedCfg).postEndTimeUtc = .invalid ∨
      (⟨.missing, .valid 0, some 5⟩ : NewsSchedCfg).postIntervalMinutes = none) ∧
    (calculateNextPostTime ⟨.missing, .valid 0, some 5⟩ 100 = none ∧
      nextScheduledEventTime ⟨.invalid, .missing, .missing⟩ ⟨[], 0, none, 0⟩ 50 = none) :=
  ⟨Or.inl rfl,
    config_error_disables_schedule ⟨.missing, .valid 0, some 5⟩ 100
      ⟨.invalid, .missing, .missing⟩ ⟨[], 0, none, 0⟩ 50
      (Or.inl rfl) (Or.inr rfl) (Or.inl rfl)⟩

/-- Posting an item never changes the generation date and only consumes the
queue (the result queue is a suffix of the input queue). -/
theorem doPostNextItem_date_suffix (cfg : HoliCfg) (chats : List Int)
    (st : HoliState) (now : ℚ) :
    ((doPostNextItem cfg chats st now).1).lastGenerationDate = st.lastGenerationDate ∧
    ((doPostNextItem cfg chats st now).1).queue <:+ st.queue := by
  unfold doPostNextItem
  rcases hq : st.queue with _ | ⟨x, rest⟩
  · exact ⟨rfl, List.nil_suffix⟩
  · by_cases hc : chats = []
    · simp only [if_pos hc]
      refine ⟨?_, List.suffix_cons x rest⟩
      trivial
    · simp only [if_neg hc]
      rcases cfg.postStartTimeUtc with _ | _ | s2 <;>
        rcases cfg.postEndTimeUtc with _ | _ | e2
      all_goals rcases rest with _ | ⟨y, rs⟩
      all_goals try exact ⟨rfl, List.nil_suffix⟩
      all_goals try exact ⟨rfl, List.suffix_cons x _⟩
      all_goals
        ( rw [if_neg (List.cons_ne_nil y rs)]
          dsimp only
          refine ⟨?_, ?_⟩ <;> split_ifs <;>
            first
              | rfl
              | exact List.nil_suffix
              | exact List.suffix_cons x _ )

/-- Every value the slot loop returns is of the form `slot + k * interval`. -/
theorem nextSlotLoop_exists_mul (target itv : Nat) :
    ∀ (fuel slot : Nat), ∃ k, nextSlotLoop target itv fuel slot = slot + k * itv := by
  intro fuel
  induction fuel with
  | zero => intro slot; exact ⟨0, by simp [nextSlotLoop]⟩
  | succ n ih =>
      intro slot
      unfold nextSlotLoop
      by_cases hlt : slot < target
      · rw [if_pos hlt]
        obtain ⟨k, hk⟩ := ih (slot + itv)
        exact ⟨k + 1, by rw [hk]; ring⟩
      · rw [if_neg hlt]
        exact ⟨0, by simp⟩

/-- With a positive interval and enough fuel, the slot loop reaches the target. -/
theorem nextSlotLoop_ge (target itv : Nat) (hitv : 0 < itv) :
    ∀ (fuel slot : Nat), target ≤ slot + fuel →
      target ≤ nextSlotLoop target itv fuel slot := by
  intro fuel
  induction fuel with
  | zero => intro slot h; simpa [nextSlotLoop] using h
  | succ n ih =>
      intro slot h
      unfold nextSlotLoop
      by_cases hlt : slot < target
      · rw [if_pos hlt]
        exact ih (slot + itv) (by omega)
      · rw [if_neg hlt]
        omega

/-- The slot loop never overshoots: it stays at or below any slot of the form
`slot + j * interval` that already reaches the target. -/
theorem nextSlotLoop_min (target itv : Nat) :
    ∀ (fuel slot j : Nat), target ≤ slot + j * itv →
      nextSlotLoop target itv fuel slot ≤ slot + j * itv := by
  intro fuel
  induction fuel with
  | zero => intro slot j _; simp [nextSlotLoop]
  | succ n ih =>
      intro slot j h
      unfold nextSlotLoop
      by_cases hlt : slot < target
      · rw [if_pos hlt]
        cases j with
        | zero => simp at h; omega
        | succ j =>
            rw [Nat.succ_mul] at h
            have h2 : target ≤ slot + itv + j * itv := by omega
            have h3 := ih (slot + itv) j h2
            calc nextSlotLoop target itv n (slot + itv) ≤ slot + itv + j * itv := h3
              _ = slot + (j + 1) * itv := by ring
      · rw [if_neg hlt]
        exact Nat.le_add_right slot (j * itv)

/-- C7: with a valid window and a positive interval, the news module's next
tick is the smallest `start + k * interval` at or after `max(now, start)`
whenever such a slot lies within the window end, and `start` on the following
day (start + 1440 minutes) when every in-window slot falls before
`max(now, start)`. -/
theorem news_next_tick_formula (s e itv now t : Nat) (hitv : 0 < itv)
    (h : calculateNextPostTime ⟨.valid s, .valid e, some itv⟩ now = some t) :
    ((∃ k, t = s + k * itv) ∧ max now s ≤ t ∧ t ≤ e ∧
      ∀ k, max now s ≤ s + k * itv → t ≤ s + k * itv) ∨
    (t = s + 1440 ∧ ∀ k, s + k * itv ≤ e → s + k * itv < max now s) := by
  simp only [calculateNextPostTime] at h
  by_cases h1 : e < max now s
  · rw [if_pos h1] at h
    right
    have ht : t = s + 1440 := (Option.some.inj h).symm
    exact ⟨ht, fun k hk => lt_of_le_of_lt hk h1⟩
  · rw [if_neg h1] at h
    by_cases h2 : nextSlotLoop (max now s) itv (max now s) s ≤ e
    · rw [if_pos h2] at h
      have ht : t = nextSlotLoop (max now s) itv (max now s) s := (Option.some.inj h).symm
      left
      obtain ⟨k, hk⟩ := nextSlotLoop_exists_mul (max now s) itv (max now s) s
      refine ⟨⟨k, ht.trans hk⟩, ?_, ht ▸ h2, ?_⟩
      · have := nextSlotLoop_ge (max now s) itv hitv (max now s) s (Nat.le_add_left _ s)
        omega
      · intro k2 hk2
        have := nextSlotLoop_min (max now s) itv (max now s) s k2 hk2
        omega
    · rw [if_neg h2] at h
      right
      have ht : t = s + 1440 := (Option.some.inj h).symm
      refine ⟨ht, fun k hk => ?_⟩
      by_contra hcon
      push_neg at hcon
      have := nextSlotLoop_min (max now s) itv (max now s) s k hcon
      omega

/-- C7 witness: start 10, end 100, interval 30, now 25: the next tick is slot
40, the smallest 10 + 30k at or after 25. -/
theorem news_next_tick_formula_witness :
    (0 < 30 ∧ calculateNextPostTime ⟨.valid 10, .valid 100, some 30⟩ 25 = some 40) ∧
    (((∃ k, 40 = 10 + k * 30) ∧ max 25 10 ≤ 40 ∧ 40 ≤ 100 ∧
        ∀ k, max 25 10 ≤ 10 + k * 30 → 40 ≤ 10 + k * 30) ∨
      (40 = 10 + 1440 ∧ ∀ k, 10 + k * 30 ≤ 100 → 10 + k * 30 < max 25 10)) :=
  ⟨⟨by decide, by decide⟩,
    news_next_tick_formula 10 100 30 25 40 (by decide) (by decide)⟩

/-- A timestamp lying within day `d` has `date()` equal to `d`. -/
theorem dayOf_eq_of_bounds (d : ℤ) (t : ℚ) (h1 : 86400 * (d : ℚ) ≤ t)
    (h2 : t < 86400 * (d : ℚ) + 86400) : dayOf t = d := by
  unfold dayOf
  rw [Int.floor_eq_iff]
  constructor
  · rw [le_div_iff₀ (by norm_num : (0 : ℚ) < 86400)]
    linarith
  · rw [div_lt_iff₀ (by norm_num : (0 : ℚ) < 86400)]
    linarith

/-- Posting the last queued item leaves an empty queue and no next post time. -/
theorem doPostNextItem_single (cfg : HoliCfg) (chats : List Int) (st : HoliState)
    (now : ℚ) (x : Nat) (hq : st.queue = [x]) (hc : chats ≠ []) :
    (doPostNextItem cfg chats st now).1
      = { st with queue := [], nextPostTime := none } := by
  unfold doPostNextItem
  rw [hq]
  simp only [if_neg hc]
  rcases cfg.postStartTimeUtc with _ | _ | s2 <;>
    rcases cfg.postEndTimeUtc with _ | _ | e2 <;> rfl

/-- Posting one of several queued items, with both window bounds configured:
the tail is kept and the next post scheduled at `now + interval`, unless that
time falls past the (overnight-adjusted) window end, in which case the whole
remainder is dropped. -/
theorem doPostNextItem_step (cfg : HoliCfg) (chats : List Int) (st : HoliState)
    (now : ℚ) (s e : Nat) (x y : Nat) (rs : List Nat)
    (hcs : cfg.postStartTimeUtc = .valid s) (hce : cfg.postEndTimeUtc = .valid e)
    (hc : chats ≠ []) (hq : st.queue = x :: y :: rs) :
    (doPostNextItem cfg chats st now).1
      = if (if atTimeOfDay now e < atTimeOfDay now s
            then atTimeOfDay now e + 86400 else atTimeOfDay now e)
          < now + st.postIntervalSeconds
        then { st with queue := [], nextPostTime := none }
        else { st with queue := y :: rs, nextPostTime := some (now + st.postIntervalSeconds) }
    := by
  unfold doPostNextItem
  rw [hq, hcs, hce]
  simp only [if_neg hc]
  rw [if_neg (List.cons_ne_nil y rs)]

/-- An empty queue or a cleared next post time ends the timeline. -/
theorem postTimelineAux_nil (cfg : HoliCfg) (chats : List Int) (fuel : Nat)
    (st : HoliState) (h : st.queue = [] ∨ st.nextPostTime = none) :
    postTimelineAux cfg chats fuel st = [] := by
  cases fuel with
  | zero => rfl
  | succ n =>
      rcases h with h | h
      · unfold postTimelineAux
        rw [h]
      · unfold postTimelineAux
        rw [h]
        rcases st.queue with _ | ⟨x, xs⟩ <;> rfl

/-- The drip timeline is an arithmetic progression with step
`postIntervalSeconds` as long as the configured window is same-day
(`start ≤ end < 24h`) and the head post time lies inside day `d` before the
window end: the i-th realised post time is `t + i * interval`. -/
theorem postTimelineAux_arith (cfg : HoliCfg) (chats : List Int) (s e : Nat) (d : ℤ)
    (hcs : cfg.postStartTimeUtc = .valid s) (hce : cfg.postEndTimeUtc = .valid e)
    (hse : (s : ℚ) ≤ (e : ℚ)) (he24 : (e : ℚ) < 86400) (hchats : chats ≠ []) :
    ∀ (fuel : Nat) (st : HoliState) (t : ℚ),
      st.queue.length ≤ fuel →
      st.nextPostTime = some t →
      0 ≤ st.postIntervalSeconds →
      86400 * (d : ℚ) ≤ t → t ≤ 86400 * (d : ℚ) + (e : ℚ) →
      ∀ i, i < (postTimelineAux cfg chats fuel st).length →
        (postTimelineAux cfg chats fuel st).get? i
          = some (t + (i : ℚ) * st.postIntervalSeconds) := by
  intro fuel
  induction fuel with
  | zero =>
      intro st t _ _ _ _ _ i hi
      simp [postTimelineAux] at hi
  | succ n ih =>
      intro st t hlen hnext hnn ht1 ht2 i hi
      rcases hq : st.queue with _ | ⟨x, rest⟩
      · rw [postTimelineAux_nil cfg chats (n + 1) st (Or.inl hq)] at hi
        simp at hi
      · have hstep : postTimelineAux cfg chats (n + 1) st
            = t :: postTimelineAux cfg chats n (doPostNextItem cfg chats st t).1 := by
          rw [postTimelineAux, hq, hnext]
        rw [hstep] at hi ⊢
        have hdayt : dayOf t = d :=
          dayOf_eq_of_bounds d t ht1 (by linarith)
        have hats : atTimeOfDay t s = 86400 * (d : ℚ) + (s : ℚ) := by
          unfold atTimeOfDay dayStart
          rw [hdayt]
        have hate : atTimeOfDay t e = 86400 * (d : ℚ) + (e : ℚ) := by
          unfold atTimeOfDay dayStart
          rw [hdayt]
        cases i with
        | zero => simp
        | succ i =>
            rw [List.get?_cons_succ]
            rw [List.length_cons] at hi
            have hi2 : i < (postTimelineAux cfg chats n (doPostNextItem cfg chats st t).1).length := by
              omega
            rcases hr : rest with _ | ⟨y, rs⟩
            · rw [doPostNextItem_single cfg chats st t x (by rw [hq, hr]) hchats,
                  postTimelineAux_nil cfg chats n _ (Or.inl rfl)] at hi2
              simp at hi2
            · have hst2 := doPostNextItem_step cfg chats st t s e x y rs hcs hce hchats
                (by rw [hq, hr])
              have hadj : (if 86400 * (d : ℚ) + (e : ℚ) < 86400 * (d : ℚ) + (s : ℚ)
                  then 86400 * (d : ℚ) + (e : ℚ) + 86400 else 86400 * (d : ℚ) + (e : ℚ))
                  = 86400 * (d : ℚ) + (e : ℚ) := by
                rw [if_neg]
                exact not_lt.mpr (by linarith)
              rw [hats, hate, hadj] at hst2
              by_cases hdrop : 86400 * (d : ℚ) + (e : ℚ) < t + st.postIntervalSeconds
              · rw [if_pos hdrop] at hst2
                rw [hst2, postTimelineAux_nil cfg chats n _ (Or.inl rfl)] at hi2
                simp at hi2
              · rw [if_neg hdrop] at hst2
                rw [hst2] at hi2 ⊢
                have hlen2 : ({ st with queue := y :: rs, nextPostTime := some (t + st.postIntervalSeconds) } : HoliState).queue.length ≤ n := by
                  rw [hq, hr] at hlen
                  simpa using hlen
                have hb1 : 86400 * (d : ℚ) ≤ t + st.postIntervalSeconds := by linarith
                have hb2 : t + st.postIntervalSeconds ≤ 86400 * (d : ℚ) + (e : ℚ) :=
                  not_lt.mp hdrop
                have hkey := ih
                  { st with queue := y :: rs, nextPostTime := some (t + st.postIntervalSeconds) }
                  (t + st.postIntervalSeconds) hlen2 rfl hnn hb1 hb2 i hi2
                rw [hkey]
                dsimp only
                congr 1
                push_cast
                ring

/-- The generated state after a same-day-window generation run at time `g`:
queue filled, generation date recorded, interval
`(end - start) / max(1, N - 1)` from the full configured window, first post at
`max(g, today's start)`. -/
theorem doGenerate_fields (cfg : HoliCfg) (holidays : List Nat) (g : ℚ)
    (st : HoliState) (s e : Nat)
    (hcs : cfg.postStartTimeUtc = .valid s) (hce : cfg.postEndTimeUtc = .valid e)
    (hhol : holidays ≠ []) (hse : (s : ℚ) ≤ (e : ℚ))
    (hg : g ≤ dayStart g + (e : ℚ)) :
    (doGenerateAndQueueContent cfg holidays g st).1
      = { st with
          queue := holidays
          lastGenerationDate := dayOf g
          postIntervalSeconds :=
            ((e : ℚ) - (s : ℚ)) / ((max 1 (holidays.length - 1) : Nat) : ℚ)
          nextPostTime := some (max g (dayStart g + (s : ℚ))) } := by
  unfold doGenerateAndQueueContent
  rw [if_neg hhol, hcs, hce]
  dsimp only
  unfold atTimeOfDay
  rw [if_neg (not_lt.mpr (by linarith : dayStart g + (s : ℚ) ≤ dayStart g + (e : ℚ)))]
  rw [if_neg (not_lt.mpr hg)]
  by_cases hw : (0 : ℚ) < dayStart g + (e : ℚ) - (dayStart g + (s : ℚ))
  · rw [if_pos ⟨List.length_pos.mpr hhol, hw⟩]
    have : dayStart g + (e : ℚ) - (dayStart g + (s : ℚ)) = (e : ℚ) - (s : ℚ) := by ring
    rw [this]
  · rw [if_neg (fun hand => hw hand.2)]
    have hes : (e : ℚ) - (s : ℚ) = 0 := by
      have : dayStart g + (e : ℚ) - (dayStart g + (s : ℚ)) = (e : ℚ) - (s : ℚ) := by ring
      rw [this] at hw
      linarith
    rw [hes, zero_div]

/-- C2 (amended): with a same-day window `[start, end]` (start ≤ end < 24h),
N generated items and generation at a time `g` not past the window end, the
realised post times form the arithmetic progression
timestamp(i) = S + i * ((end - start) / max(1, N - 1)), where
S = max(g, today's configured start): the interval is computed from the FULL
configured window (end - configured start), not from the effective window
(end - S), and trailing slots that would land past the window end are dropped
rather than posted.  For N = 5, window 08:00-20:00 and generation at 08:00
this gives exactly 08:00, 11:00, 14:00, 17:00, 20:00. -/
theorem drip_timeline_uniform_full_window (cfg : HoliCfg) (s e : Nat)
    (holidays : List Nat) (chats : List Int) (g : ℚ) (st : HoliState)
    (hcs : cfg.postStartTimeUtc = .valid s) (hce : cfg.postEndTimeUtc = .valid e)
    (hse : (s : ℚ) ≤ (e : ℚ)) (he24 : (e : ℚ) < 86400)
    (hhol : holidays ≠ []) (hchats : chats ≠ [])
    (hg : g ≤ dayStart g + (e : ℚ)) :
    ∀ i, i < (postTimeline cfg chats (doGenerateAndQueueContent cfg holidays g st).1).length →
      (postTimeline cfg chats (doGenerateAndQueueContent cfg holidays g st).1).get? i
        = some (max g (dayStart g + (s : ℚ))
            + (i : ℚ) * (((e : ℚ) - (s : ℚ)) / ((max 1 (holidays.length - 1) : Nat) : ℚ))) := by
  intro i hi
  rw [doGenerate_fields cfg holidays g st s e hcs hce hhol hse hg] at hi ⊢
  unfold postTimeline at hi ⊢
  set stG : HoliState := { st with
      queue := holidays
      lastGenerationDate := dayOf g
      postIntervalSeconds :=
        ((e : ℚ) - (s : ℚ)) / ((max 1 (holidays.length - 1) : Nat) : ℚ)
      nextPostTime := some (max g (dayStart g + (s : ℚ))) } with hstG
  have hday : dayStart g = 86400 * ((dayOf g : ℤ) : ℚ) := rfl
  have h1 : 86400 * ((dayOf g : ℤ) : ℚ) ≤ max g (dayStart g + (s : ℚ)) := by
    rw [← hday]
    have : dayStart g ≤ dayStart g + (s : ℚ) := by
      have : (0 : ℚ) ≤ (s : ℚ) := Nat.cast_nonneg s
      linarith
    exact le_trans this (le_max_right _ _)
  have h2 : max g (dayStart g + (s : ℚ)) ≤ 86400 * ((dayOf g : ℤ) : ℚ) + (e : ℚ) := by
    rw [← hday]
    exact max_le hg (by linarith)
  have hnn : (0 : ℚ) ≤ ((e : ℚ) - (s : ℚ)) / ((max 1 (holidays.length - 1) : Nat) : ℚ) := by
    apply div_nonneg (by linarith)
    have : (0 : Nat) < max 1 (holidays.length - 1) := by omega
    exact_mod_cast Nat.zero_le _
  exact postTimelineAux_arith cfg chats s e (dayOf g) hcs hce hse he24 hchats
    stG.queue.length stG (max g (dayStart g + (s : ℚ))) (le_refl _) rfl hnn h1 h2 i hi

/-- C2 witness: N = 5 items, window 08:00-20:00 (28800-72000 s), generation at
08:00 on day 0: the realised timeline is 08:00, 11:00, 14:00, 17:00, 20:00 —
in particular the last (5th) post lands exactly at the window end. -/
theorem drip_timeline_uniform_full_window_witness :
    (((28800 : ℚ) ≤ (72000 : ℚ)) ∧ ((72000 : ℚ) < 86400) ∧
      ([1, 2, 3, 4, 5] : List Nat) ≠ [] ∧ ([2] : List Int) ≠ [] ∧
      (28800 : ℚ) ≤ dayStart 28800 + (72000 : ℚ) ∧
      4 < (postTimeline ⟨.valid 0, .valid 28800, .valid 72000⟩ [2]
        (doGenerateAndQueueContent ⟨.valid 0, .valid 28800, .valid 72000⟩
          [1, 2, 3, 4, 5] 28800 (holibotInit .missing)).1).length) ∧
    (postTimeline ⟨.valid 0, .valid 28800, .valid 72000⟩ [2]
        (doGenerateAndQueueContent ⟨.valid 0, .valid 28800, .valid 72000⟩
          [1, 2, 3, 4, 5] 28800 (holibotInit .missing)).1).get? 4
      = some (max 28800 (dayStart 28800 + ((28800 : Nat) : ℚ))
          + ((4 : Nat) : ℚ) * ((((72000 : Nat) : ℚ) - ((28800 : Nat) : ℚ))
              / ((max 1 (([1, 2, 3, 4, 5] : List Nat).length - 1) : Nat) : ℚ))) :=
  ⟨⟨by norm_num, by norm_num, by decide, by decide, by decide, by decide⟩,
    drip_timeline_uniform_full_window ⟨.valid 0, .valid 28800, .valid 72000⟩
      28800 72000 [1, 2, 3, 4, 5] [2] 28800 (holibotInit .missing)
      rfl rfl (by norm_num) (by norm_num) (by decide) (by decide) (by decide)
      4 (by decide)⟩

/-- C6 (amended): a second due-event call on a day whose generation has already
run never re-triggers generation — the stored generation date is unchanged and
no items are ever added to the queue (the queue after the call is a suffix of
the queue before it).  The call may, however, post a queued item that is due
(possibly also dropping the past-window remainder), so the queue may shrink. -/
theorem due_event_same_day_no_regen (cfg : HoliCfg) (holidays : List Nat)
    (chats : List Int) (st : HoliState) (now : ℚ)
    (hdone : st.lastGenerationDate = dayOf now) :
    (processDueEvent cfg holidays chats st now).lastGenerationDate
      = st.lastGenerationDate ∧
    (processDueEvent cfg holidays chats st now).queue <:+ st.queue := by
  unfold processDueEvent
  have hgen : (match cfg.postTimeUtc with
      | CfgTime.valid g =>
          decide (st.lastGenerationDate ≠ dayOf now ∧ atTimeOfDay now g - 2 ≤ now)
      | _ => false) = false := by
    cases cfg.postTimeUtc <;> simp [hdone]
  simp only [hgen, Bool.false_eq_true, if_false]
  split
  · split
    · exact doPostNextItem_date_suffix cfg chats st now
    · exact ⟨rfl, List.suffix_refl _⟩
  · exact ⟨rfl, List.suffix_refl _⟩

/-- C6 witness. -/
theorem due_event_same_day_no_regen_witness :
    ((⟨[1], 5, none, 0⟩ : HoliState).lastGenerationDate = dayOf 432000) ∧
    ((processDueEvent ⟨.valid 28800, .missing, .missing⟩ [9] [2]
        (⟨[1], 5, none, 0⟩ : HoliState) 432000).lastGenerationDate
        = (⟨[1], 5, none, 0⟩ : HoliState).lastGenerationDate ∧
      (processDueEvent ⟨.valid 28800, .missing, .missing⟩ [9] [2]
        (⟨[1], 5, none, 0⟩ : HoliState) 432000).queue
        <:+ (⟨[1], 5, none, 0⟩ : HoliState).queue) :=
  ⟨by decide,
    due_event_same_day_no_regen ⟨.valid 28800, .missing, .missing⟩ [9] [2]
      ⟨[1], 5, none, 0⟩ 432000 (by decide)⟩

/-- C10: after posting one queued item, when both window bounds are configured
and the freshly computed next post time `now + interval` falls past the current
day's (overnight-adjusted) window end while items remain queued, the whole
remaining queue is discarded and the next post time is cleared; any further
post attempt on the resulting state posts nothing. -/
theorem drip_drop_past_window_end (cfg : HoliCfg) (chats : List Int) (st : HoliState)
    (now : ℚ) (s e : Nat) (x y : Nat) (rest : List Nat)
    (hcs : cfg.postStartTimeUtc = .valid s) (hce : cfg.postEndTimeUtc = .valid e)
    (hq : st.queue = x :: y :: rest) (hc : chats ≠ [])
    (hpast : (if atTimeOfDay now e < atTimeOfDay now s
              then atTimeOfDay now e + 86400 else atTimeOfDay now e)
            < now + st.postIntervalSeconds) :
    ((doPostNextItem cfg chats st now).1).queue = [] ∧
    ((doPostNextItem cfg chats st now).1).nextPostTime = none ∧
    ∀ (chats2 : List Int) (now2 : ℚ),
      (doPostNextItem cfg chats2 ((doPostNextItem cfg chats st now).1) now2).2 = false := by
  have hres : (doPostNextItem cfg chats st now).1
      = { st with queue := [], nextPostTime := none } := by
    unfold doPostNextItem
    rw [hq, hcs, hce]
    simp only [if_neg hc]
    simp [hpast]
  rw [hres]
  exact ⟨rfl, rfl, fun chats2 now2 => rfl⟩

/-- C10 witness. -/
theorem drip_drop_past_window_end_witness :
    ((⟨.valid 0, .valid 28800, .valid 72000⟩ : HoliCfg).postStartTimeUtc = .valid 28800 ∧
      (⟨.valid 0, .valid 28800, .valid 72000⟩ : HoliCfg).postEndTimeUtc = .valid 72000 ∧
      (⟨[1, 2, 3], 0, some 50400, 43200⟩ : HoliState).queue = 1 :: 2 :: [3] ∧
      ([1] : List Int) ≠ [] ∧
      (if atTimeOfDay (50400 : ℚ) 72000 < atTimeOfDay (50400 : ℚ) 28800
        then atTimeOfDay (50400 : ℚ) 72000 + 86400 else atTimeOfDay (50400 : ℚ) 72000)
        < 50400 + (⟨[1, 2, 3], 0, some 50400, 43200⟩ : HoliState).postIntervalSeconds) ∧
    (((doPostNextItem ⟨.valid 0, .valid 28800, .valid 72000⟩ [1]
        ⟨[1, 2, 3], 0, some 50400, 43200⟩ 50400).1).queue = [] ∧
      ((doPostNextItem ⟨.valid 0, .valid 28800, .valid 72000⟩ [1]
        ⟨[1, 2, 3], 0, some 50400, 43200⟩ 50400).1).nextPostTime = none ∧
      ∀ (chats2 : List Int) (now2 : ℚ),
        (doPostNextItem ⟨.valid 0, .valid 28800, .valid 72000⟩ chats2
          ((doPostNextItem ⟨.valid 0, .valid 28800, .valid 72000⟩ [1]
            ⟨[1, 2, 3], 0, some 50400, 43200⟩ 50400).1) now2).2 = false) :=
  ⟨⟨rfl, rfl, rfl, by decide, by decide⟩,
    drip_drop_past_window_end ⟨.valid 0, .valid 28800, .valid 72000⟩ [1]
      ⟨[1, 2, 3], 0, some 50400, 43200⟩ 50400 28800 72000 1 2 [3]
      rfl rfl rfl (by decide) (by decide)⟩

/-- C5: a forced (`force_post=True`) news run starts its scan at source index 0
and leaves the persisted rotation cursor exactly as it was, whether or not an
article gets posted. -/
theorem forced_run_preserves_cursor (sources : List SourceEnv) (now : Int) (st : NewsState) :
    newsStartIndex true st.lastSourceIndex sources.length = 0 ∧
    (saveStateToDisk ((runNewsJob sources now true st).1)).lastSourceIndex
      = (saveStateToDisk st).lastSourceIndex := by
  refine ⟨rfl, ?_⟩
  unfold runNewsJob saveStateToDisk
  split
  · rfl
  · exact newsJobVisit_force_cursor sources now _ st
